import Mathlib

/-!
Verification of `data_juicer/utils/model_utils.py`: the model artifact
resolver (`check_model`), the backup-download fallback policy
(`get_backup_model_link`), the process-wide model cache
(`prepare_model` / `get_model` over `MODEL_ZOO`), and device placement
(`move_to_cuda`).  Python functions are embedded as pure Lean functions;
filesystem and network effects are made explicit (a set of existing
paths, a success oracle for URLs, and a trace of performed events).
-/

namespace ModelUtils

/-! ### Glob matching (Python `fnmatch.fnmatch`)

Python's `fnmatch` translates a pattern to a regex: `*` matches any
(possibly empty) character sequence, `?` matches exactly one character,
every other character matches itself literally (case folding is the
identity on POSIX).  The `[...]` character-class syntax is not used by
any pattern in `BACKUP_MODEL_LINKS`, so characters other than `*` and
`?` are treated literally here, exactly as `fnmatch` treats them for
class-free patterns. -/

/-- All suffixes of a list, longest first, including the empty suffix. -/
def tails : List Char → List (List Char)
  | [] => [[]]
  | c :: cs => (c :: cs) :: tails cs

/-- Anchored glob matching: `glob pat name` is true iff `name` (as a whole)
matches the pattern `pat`. Structural recursion on the pattern. -/
def glob : List Char → List Char → Bool
  | [], n => n.isEmpty
  | p :: ps, n =>
    if p = '*' then (tails n).any (fun s => glob ps s)
    else
      match n with
      | [] => false
      | c :: cs => (p = '?' || p = c) && glob ps cs

/-- `fnmatch.fnmatch(name, pattern)` on POSIX, for class-free patterns. -/
def fnmatch (name pattern : String) : Bool :=
  glob pattern.toList name.toList

/-! ### Download link tables -/

/-- Primary download base URL (`MODEL_LINKS` in the source). -/
def MODEL_LINKS : String :=
  "https://dail-wlcb.oss-cn-wulanchabu.aliyuncs.com/data_juicer/models/"

/-- `BACKUP_MODEL_LINKS`: the backup pattern table, in source declaration
order (Python dicts preserve insertion order). -/
def BACKUP_MODEL_LINKS : List (String × String) :=
  [("lid.176.bin", "https://dl.fbaipublicfiles.com/fasttext/supervised-models/"),
   ("*.sp.model", "https://huggingface.co/edugp/kenlm/resolve/main/wikipedia/"),
   ("*.arpa.bin", "https://huggingface.co/edugp/kenlm/resolve/main/wikipedia/"),
   ("punkt.*.pickle", "https://dail-wlcb.oss-cn-wulanchabu.aliyuncs.com/data_juicer/models/")]

/-- First pattern (in table order) matching the name wins. -/
def firstMatch : List (String × String) → String → Option String
  | [], _ => none
  | (pat, url) :: rest, name =>
    if fnmatch name pat then some url else firstMatch rest name

/-- `get_backup_model_link(model_name)`: iterate over
`BACKUP_MODEL_LINKS.items()` and return the URL of the first pattern the
name matches, else `None`. -/
def get_backup_model_link (model_name : String) : Option String :=
  firstMatch BACKUP_MODEL_LINKS model_name

/-! ### The artifact resolver `check_model`

The filesystem is modelled as the list of existing paths, the network as
an oracle `net : String → Bool` saying whether `wget.download` of a URL
succeeds, and the side effects as an explicit trace of events.  A
successful download creates the destination file; a failed one creates
nothing and raises (caught by the source's bare `except`). -/

/-- Modelled from the spec: `DATA_JUICER_MODELS_CACHE` is imported from
`cache_utils` (not under `src/`); per the spec it is a single well-known
cache directory whose location is supplied externally. Its concrete
value is irrelevant to every claim. -/
def DJMC : String := "/dj/models"

/-- Does the string start with the path separator? -/
def startsWithSep (s : String) : Bool :=
  match s.toList with
  | [] => false
  | c :: _ => c = '/'

/-- Does the string end with the path separator? -/
def endsWithSep (s : String) : Bool :=
  s.toList.getLast? = some '/'

/-- `os.path.join` (posixpath, two arguments). -/
def pjoin (a b : String) : String :=
  if startsWithSep b then b
  else if endsWithSep a || a = "" then a ++ b
  else a ++ "/" ++ b

/-- Observable side effects performed by `check_model`. A `download`
event records an attempt (url, destination), whether or not it
succeeds; `logError` is the `logger.error` report naming the model and
both attempted URLs. -/
inductive Ev where
  | makedirs (dir : String)
  | removeFile (path : String)
  | download (url dest : String)
  | logError (name primaryUrl backupUrl : String)
deriving DecidableEq, Repr

/-- How a `check_model` call ends: normal return of a path, process
termination via `exit(1)`, or an uncaught Python exception. -/
inductive CheckResult where
  | ok (path : String)
  | exited (code : Nat)
  | raised (exn : String)
deriving DecidableEq, Repr

/-- `check_model(model_name, force)`.  Faithful control flow:
1. if `os.path.exists(model_name)`: return it unchanged;
2. create `DJMC` if missing;
3. only under `force`: delete an existing cached copy, then try the
   primary URL, then the backup URL; if the backup lookup returns `None`,
   `os.path.join(None, model_name)` raises `TypeError` inside the inner
   `try`, and the `except` handler itself raises `UnboundLocalError`
   when formatting the unassigned `backup_model_link`; if both downloads
   fail, log the error and `exit(1)`;
4. without `force` nothing further happens;
5. return `cached_model_path`.
Returns (result, filesystem after, event trace). -/
def check_model (net : String → Bool) (fs : List String)
    (model_name : String) (force : Bool) :
    CheckResult × List String × List Ev :=
  if fs.contains model_name then (CheckResult.ok model_name, fs, [])
  else
    let withCache :=
      if fs.contains DJMC then (fs, ([] : List Ev))
      else (DJMC :: fs, [Ev.makedirs DJMC])
    let fs1 := withCache.1
    let ev1 := withCache.2
    let cached := pjoin DJMC model_name
    if force then
      let afterRm :=
        if fs1.contains cached then (fs1.erase cached, [Ev.removeFile cached])
        else (fs1, ([] : List Ev))
      let fs2 := afterRm.1
      let ev2 := afterRm.2
      let model_link := pjoin MODEL_LINKS model_name
      if net model_link then
        (CheckResult.ok cached, cached :: fs2,
          ev1 ++ ev2 ++ [Ev.download model_link cached])
      else
        match get_backup_model_link model_name with
        | none =>
          (CheckResult.raised "UnboundLocalError", fs2,
            ev1 ++ ev2 ++ [Ev.download model_link cached])
        | some base =>
          let backup_model_link := pjoin base model_name
          if net backup_model_link then
            (CheckResult.ok cached, cached :: fs2,
              ev1 ++ ev2 ++ [Ev.download model_link cached,
                             Ev.download backup_model_link cached])
          else
            (CheckResult.exited 1, fs2,
              ev1 ++ ev2 ++ [Ev.download model_link cached,
                             Ev.download backup_model_link cached,
                             Ev.logError model_name model_link backup_model_link])
    else (CheckResult.ok cached, fs1, ev1)

/-- Is an event a download attempt? -/
def isDownload : Ev → Bool
  | Ev.download _ _ => true
  | _ => false

/-- Is an event the both-URLs error report? -/
def isLogError : Ev → Bool
  | Ev.logError _ _ _ => true
  | _ => false

/-! ### Device placement `move_to_cuda`

A module is modelled with its Python object identity, the status of its
`to` attribute as seen by `callable(getattr(module, 'to', None))`, the
device it currently sits on, and a count of `to` invocations.  In-place
mutation is modelled by returning the updated modules (identities are
preserved); the Python function returns `None`.  Invoking `to` on an
element that lacks a callable `to` would raise, which the `Except`
result makes explicit. -/

/-- Status of the `to` attribute of an object. -/
inductive ToAttr where
  | callableTo
  | nonCallable
deriving DecidableEq, Repr

/-- A member of the (possibly tuple-valued) loaded model. -/
structure Module where
  ident : Nat
  toAttr : Option ToAttr
  device : Option String
  toCalls : Nat
deriving DecidableEq, Repr

/-- `model` argument of `move_to_cuda`: a single module or a tuple. -/
inductive PyModel where
  | single (m : Module)
  | tupleOf (ms : List Module)
deriving DecidableEq, Repr

/-- `if not isinstance(model, tuple): model = (model,)`. -/
def normalizeModel : PyModel → List Module
  | PyModel.single m => [m]
  | PyModel.tupleOf ms => ms

/-- Invoke `module.to(dev)`: raises unless `to` is a callable attribute;
on success the module is mutated onto `dev`. -/
def callTo (m : Module) (dev : String) : Except String Module :=
  match m.toAttr with
  | some ToAttr.callableTo =>
      Except.ok { m with device := some dev, toCalls := m.toCalls + 1 }
  | some ToAttr.nonCallable => Except.error "TypeError"
  | none => Except.error "TypeError"

/-- The loop body of `move_to_cuda` over the normalized sequence:
`if callable(getattr(module, 'to', None)): module.to(dev)`. -/
def moveModules (dev : String) : List Module → Except String (List Module)
  | [] => Except.ok []
  | m :: rest =>
    if m.toAttr = some ToAttr.callableTo then
      match callTo m dev with
      | Except.ok m2 =>
        match moveModules dev rest with
        | Except.ok ms => Except.ok (m2 :: ms)
        | Except.error e => Except.error e
      | Except.error e => Except.error e
    else
      match moveModules dev rest with
      | Except.ok ms => Except.ok (m :: ms)
      | Except.error e => Except.error e

/-- The f-string `f'cuda:\x7brank\x7d'`. -/
def cudaDevice (rank : Nat) : String := "cuda:" ++ toString rank

/-- `move_to_cuda(model, rank)`. -/
def move_to_cuda (model : PyModel) (rank : Nat) : Except String (List Module) :=
  moveModules (cudaDevice rank) (normalizeModel model)

/-- Expected effect on one element: placed iff it exposes a callable
`to`, otherwise untouched. -/
def placeSpec (dev : String) (m : Module) : Module :=
  if m.toAttr = some ToAttr.callableTo then
    { m with device := some dev, toCalls := m.toCalls + 1 }
  else m

/-! ### The model cache `MODEL_ZOO` / `prepare_model` / `get_model`

The cache key produced by `prepare_model` is
`functools.partial(model_func, **model_kwargs)`.  `functools.partial`
defines neither `__eq__` nor `__hash__`, so dict lookup compares keys by
object identity; the embedding gives every constructed key (and every
constructed model object) a fresh identity drawn from an allocation
counter, and key equality compares identities. -/

/-- Parameter bindings (`model_kwargs`), as ordered name/value pairs. -/
abbrev KwArgs := List (String × String)

/-- A cache key: `functools.partial(MODEL_FUNCTION_MAPPING[family], **kwargs)`.
`oid` is the Python object identity of the partial object. -/
structure BoundConfig where
  family : String
  kwargs : KwArgs
  oid : Nat
deriving DecidableEq, Repr

/-- A constructed model object; `oid` is its Python object identity. -/
structure LoadedModel where
  family : String
  kwargs : KwArgs
  oid : Nat
deriving DecidableEq, Repr

/-- Key comparison used by the `MODEL_ZOO` dict: `functools.partial`
objects compare by object identity. -/
def keyEq (a b : BoundConfig) : Bool := a.oid == b.oid

/-- The process state: the `MODEL_ZOO` dict as an association list, and
the allocation counter supplying fresh object identities. -/
structure ZooState where
  zoo : List (BoundConfig × LoadedModel)
  nextId : Nat
deriving DecidableEq, Repr

/-- Dict lookup in `MODEL_ZOO` (identity-keyed). -/
def zooFind : List (BoundConfig × LoadedModel) → BoundConfig → Option LoadedModel
  | [], _ => none
  | (k, v) :: rest, q => if keyEq k q then some v else zooFind rest q

/-- Keys of `MODEL_FUNCTION_MAPPING`, in source order. -/
def MODEL_FUNCTION_MAPPING_keys : List String :=
  ["fasttext", "sentencepiece", "kenlm", "nltk", "huggingface", "spacy", "diffusion"]

/-- `prepare_model(model_type, **model_kwargs)`: assert the family is
known, build the partial key, instantiate once (`model_key()`), store
the result in `MODEL_ZOO`, and return the key.  The loader functions
are external collaborators (spec 4.3): a construction yields an opaque
object carrying the family, the parameters and a fresh identity.
`none` models the failed `assert`. -/
def prepare_model (st : ZooState) (model_type : String) (kwargs : KwArgs) :
    Option (BoundConfig × ZooState) :=
  if MODEL_FUNCTION_MAPPING_keys.contains model_type then
    let key : BoundConfig := ⟨model_type, kwargs, st.nextId⟩
    let obj : LoadedModel := ⟨model_type, kwargs, st.nextId + 1⟩
    some (key, ⟨(key, obj) :: st.zoo, st.nextId + 2⟩)
  else none

/-- Observable cache events of a `get_model` call. -/
inductive GEv where
  | constructed (oid : Nat)
  | placed (oid : Nat) (rank : Nat)
deriving DecidableEq, Repr

/-- `get_model(model_key, rank)`: `None` key returns `None` at once;
otherwise construct and insert on a miss (`MODEL_ZOO[model_key] =
model_key()`), then, when CUDA is enabled, move the entry to device
`rank` (default 0) in place, and return `MODEL_ZOO[model_key]`.
Device placement mutates the stored object; it never rebinds the dict
entry, so the table itself is untouched by it. -/
def get_model (useCuda : Bool) (st : ZooState)
    (modelKey : Option BoundConfig) (rank : Option Nat) :
    Option LoadedModel × ZooState × List GEv :=
  match modelKey with
  | none => (none, st, [])
  | some k =>
    let step :=
      match zooFind st.zoo k with
      | some _ => (st, ([] : List GEv))
      | none =>
        let obj : LoadedModel := ⟨k.family, k.kwargs, st.nextId⟩
        (⟨(k, obj) :: st.zoo, st.nextId + 1⟩, [GEv.constructed st.nextId])
    let st1 := step.1
    let res := zooFind st1.zoo k
    let ev2 :=
      if useCuda then [GEv.placed ((res.map (fun v => v.oid)).getD 0) (rank.getD 0)]
      else ([] : List GEv)
    (res, st1, step.2 ++ ev2)

/-- Well-formedness of a process state: every identity stored in the
table was allocated below the counter, and distinct entries carry
distinct key identities.  Holds for the initial empty state and is
preserved by every operation. -/
def WF (st : ZooState) : Prop :=
  (∀ e ∈ st.zoo, e.1.oid < st.nextId) ∧
  st.zoo.Pairwise (fun a b => a.1.oid ≠ b.1.oid)

/-- Example parameters for concrete cache scenarios. -/
def kwEx : KwArgs := [("model_name", "lid.176.bin")]

/-- Key returned by a first registration from the empty state. -/
def k1ex : BoundConfig := ⟨"fasttext", kwEx, 0⟩

/-- Object constructed by that first registration. -/
def m1ex : LoadedModel := ⟨"fasttext", kwEx, 1⟩

/-- State after the first registration. -/
def st1ex : ZooState := ⟨[(k1ex, m1ex)], 2⟩

/-- Key returned by a second, identically-parameterized registration. -/
def k2ex : BoundConfig := ⟨"fasttext", kwEx, 2⟩

/-- Object constructed by the second registration. -/
def m2ex : LoadedModel := ⟨"fasttext", kwEx, 3⟩

/-- State after the second registration. -/
def st2ex : ZooState := ⟨[(k2ex, m2ex), (k1ex, m1ex)], 4⟩

/-! ### Helper lemmas -/

theorem firstMatch_of_none (L : List (String × String)) (name : String)
    (h : ∀ pu ∈ L, fnmatch name pu.1 = false) : firstMatch L name = none := by
  induction L with
  | nil => rfl
  | cons hd tl ih =>
    obtain ⟨pat, url⟩ := hd
    have h1 : fnmatch name pat = false := h (pat, url) (List.mem_cons_self _ _)
    simp only [firstMatch, h1, Bool.false_eq_true, if_false]
    exact ih (fun pu hm => h pu (List.mem_cons_of_mem _ hm))

theorem firstMatch_of_first (L : List (String × String)) (name : String) :
    ∀ i (hi : i < L.length),
      fnmatch name (L.get ⟨i, hi⟩).1 = true →
      (∀ j (hj : j < L.length), j < i → fnmatch name (L.get ⟨j, hj⟩).1 = false) →
      firstMatch L name = some (L.get ⟨i, hi⟩).2 := by
  induction L with
  | nil => intro i hi; exact absurd hi (by simp)
  | cons hd tl ih =>
    intro i hi hm hb
    obtain ⟨pat, url⟩ := hd
    cases i with
    | zero =>
      simp only [List.get] at hm
      simp only [firstMatch, hm, if_true, List.get]
    | succ n =>
      have h0 : fnmatch name pat = false := by
        have := hb 0 (by simp) (Nat.succ_pos n)
        simpa [List.get] using this
      simp only [firstMatch, h0, Bool.false_eq_true, if_false, List.get]
      exact ih n (Nat.lt_of_succ_lt_succ hi) (by simpa [List.get] using hm)
        (fun j hj hlt => by
          have := hb (j + 1) (Nat.succ_lt_succ hj) (Nat.succ_lt_succ hlt)
          simpa [List.get] using this)

theorem placeSpec_ident (dev : String) (m : Module) :
    (placeSpec dev m).ident = m.ident := by
  unfold placeSpec; split <;> rfl

theorem moveModules_ok (dev : String) (ms : List Module) :
    moveModules dev ms = Except.ok (ms.map (placeSpec dev)) := by
  induction ms with
  | nil => rfl
  | cons m rest ih =>
    by_cases h : m.toAttr = some ToAttr.callableTo
    · simp [moveModules, h, callTo, ih, placeSpec]
    · simp [moveModules, h, ih, placeSpec]

theorem prepare_model_shape (st : ZooState) (fam : String) (kw : KwArgs)
    (k1 : BoundConfig) (st1 : ZooState)
    (h : prepare_model st fam kw = some (k1, st1)) :
    k1 = ⟨fam, kw, st.nextId⟩
    ∧ st1 = ⟨(⟨fam, kw, st.nextId⟩, ⟨fam, kw, st.nextId + 1⟩) :: st.zoo,
              st.nextId + 2⟩ := by
  unfold prepare_model at h
  by_cases hc : MODEL_FUNCTION_MAPPING_keys.contains fam = true
  · rw [if_pos hc] at h
    simp only [Option.some.injEq, Prod.mk.injEq] at h
    exact ⟨h.1.symm, h.2.symm⟩
  · rw [if_neg hc] at h
    exact absurd h (by simp)

theorem zooFind_cons_ne (e : BoundConfig × LoadedModel)
    (zoo : List (BoundConfig × LoadedModel)) (k : BoundConfig)
    (h : keyEq e.1 k = false) : zooFind (e :: zoo) k = zooFind zoo k := by
  obtain ⟨ek, ev⟩ := e
  simp only [zooFind]
  simp only [keyEq] at h ⊢
  rw [if_neg (by simp [h])]

theorem zooFind_congr (zoo : List (BoundConfig × LoadedModel))
    (q1 q2 : BoundConfig) (h : q1.oid = q2.oid) :
    zooFind zoo q1 = zooFind zoo q2 := by
  induction zoo with
  | nil => rfl
  | cons e rest ih =>
    obtain ⟨ek, ev⟩ := e
    simp only [zooFind, keyEq, h]
    split <;> [rfl; exact ih]

theorem zooFind_some_oid_lt (zoo : List (BoundConfig × LoadedModel))
    (k : BoundConfig) (v : LoadedModel) (bound : Nat)
    (hz : ∀ e ∈ zoo, e.1.oid < bound)
    (h : zooFind zoo k = some v) : k.oid < bound := by
  induction zoo with
  | nil => exact absurd h (by simp [zooFind])
  | cons e rest ih =>
    obtain ⟨ek, ev⟩ := e
    by_cases hk : keyEq ek k = true
    · have hoid : ek.oid = k.oid := by simpa [keyEq] using hk
      have h2 : ek.oid < bound := hz (ek, ev) (List.mem_cons_self _ _)
      omega
    · rw [zooFind_cons_ne (ek, ev) rest k (by simpa using hk)] at h
      exact ih (fun e he => hz e (List.mem_cons_of_mem _ he)) h

theorem zooFind_none_of_ge (zoo : List (BoundConfig × LoadedModel))
    (q : BoundConfig) (bound : Nat)
    (hz : ∀ e ∈ zoo, e.1.oid < bound) (hq : bound ≤ q.oid) :
    zooFind zoo q = none := by
  induction zoo with
  | nil => rfl
  | cons e rest ih =>
    have h1 := hz e (List.mem_cons_self _ _)
    have hne : keyEq e.1 q = false := by
      simp only [keyEq, beq_eq_false_iff_ne, ne_eq]
      omega
    rw [zooFind_cons_ne e rest q hne]
    exact ih (fun x hx => hz x (List.mem_cons_of_mem _ hx))

theorem zooFind_none_forall (zoo : List (BoundConfig × LoadedModel))
    (q : BoundConfig) (h : zooFind zoo q = none) :
    ∀ e ∈ zoo, keyEq e.1 q = false := by
  induction zoo with
  | nil => intro e he; exact absurd he (by simp)
  | cons hd rest ih =>
    obtain ⟨ek, ev⟩ := hd
    intro e he
    by_cases hk : keyEq ek q = true
    · rw [show zooFind ((ek, ev) :: rest) q = some ev from by
        simp [zooFind, hk]] at h
      exact absurd h (by simp)
    · rcases List.mem_cons.mp he with h1 | h1
      · rw [h1]
        simpa using hk
      · rw [zooFind_cons_ne (ek, ev) rest q (by simpa using hk)] at h
        exact ih h e h1

theorem zoo_filter_length_le_one (zoo : List (BoundConfig × LoadedModel))
    (k : BoundConfig)
    (hp : zoo.Pairwise (fun a b => a.1.oid ≠ b.1.oid)) :
    (zoo.filter (fun e => keyEq e.1 k)).length ≤ 1 := by
  induction zoo with
  | nil => simp
  | cons e rest ih =>
    have hcons := List.pairwise_cons.mp hp
    by_cases hk : keyEq e.1 k = true
    · have hek : e.1.oid = k.oid := by simpa [keyEq] using hk
      have hnil : rest.filter (fun r => keyEq r.1 k) = [] := by
        rw [List.filter_eq_nil_iff]
        intro r hr
        have hne := hcons.1 r hr
        simp only [keyEq, beq_eq_false_iff_ne, ne_eq, Bool.not_eq_true]
        omega
      simp [List.filter_cons, hk, hnil]
    · simp only [List.filter_cons, hk, Bool.false_eq_true, if_false]
      exact ih hcons.2

theorem WF_prepare_model (st : ZooState) (fam : String) (kw : KwArgs)
    (k1 : BoundConfig) (st1 : ZooState) (hwf : WF st)
    (h : prepare_model st fam kw = some (k1, st1)) : WF st1 := by
  obtain ⟨hk, hs⟩ := prepare_model_shape st fam kw k1 st1 h
  subst hk
  subst hs
  constructor
  · intro e he
    show e.1.oid < st.nextId + 2
    rcases List.mem_cons.mp he with h1 | h1
    · have he1 : e.1.oid = st.nextId := by rw [h1]
      omega
    · have := hwf.1 e h1
      omega
  · refine List.pairwise_cons.mpr ⟨?_, hwf.2⟩
    intro b hb
    have := hwf.1 b hb
    show st.nextId ≠ b.1.oid
    omega

/-! ### Claim theorems -/

/-- C4: `get_backup_model_link` matches the name against the backup
table in declaration order and returns the URL of the first matching
pattern (first match wins), and returns `none` when no pattern
matches. -/
theorem get_backup_model_link_first_match (name : String) :
    (∀ i (hi : i < BACKUP_MODEL_LINKS.length),
        fnmatch name (BACKUP_MODEL_LINKS.get ⟨i, hi⟩).1 = true →
        (∀ j (hj : j < BACKUP_MODEL_LINKS.length), j < i →
            fnmatch name (BACKUP_MODEL_LINKS.get ⟨j, hj⟩).1 = false) →
        get_backup_model_link name = some (BACKUP_MODEL_LINKS.get ⟨i, hi⟩).2)
    ∧ ((∀ pu ∈ BACKUP_MODEL_LINKS, fnmatch name pu.1 = false) →
        get_backup_model_link name = none) := by
  constructor
  · intro i hi hm hb
    exact firstMatch_of_first BACKUP_MODEL_LINKS name i hi hm hb
  · intro h
    exact firstMatch_of_none BACKUP_MODEL_LINKS name h

/-- Witness for C4: `en.sp.model` misses the first pattern and matches
the second, so the second pattern's URL is returned. -/
theorem get_backup_model_link_first_match_witness :
    get_backup_model_link "en.sp.model"
      = some "https://huggingface.co/edugp/kenlm/resolve/main/wikipedia/" := by
  have h := (get_backup_model_link_first_match "en.sp.model").1 1 (by decide)
    (by decide)
    (fun j hj hlt => by
      have hj0 : j = 0 := Nat.lt_one_iff.mp hlt
      subst hj0
      show fnmatch "en.sp.model" "lid.176.bin" = false
      decide)
  exact h

/-- C6: `get_model` with a `None` key returns `None` immediately: the
state (cache table and allocation counter) is unchanged and no
construction or placement event happens, for every rank and whether or
not CUDA is enabled. -/
theorem get_model_none_noop (useCuda : Bool) (st : ZooState) (rank : Option Nat) :
    get_model useCuda st none rank = (none, st, []) := rfl

/-- C7: `move_to_cuda` normalizes its input to a sequence and, for each
element, invokes `to` with `cuda:<rank>` exactly when the element
exposes a callable `to`; other elements are left untouched; the call
never raises, and every element keeps its object identity (mutation in
place, no new objects). -/
theorem move_to_cuda_spec (model : PyModel) (rank : Nat) :
    move_to_cuda model rank
        = Except.ok ((normalizeModel model).map (placeSpec (cudaDevice rank)))
    ∧ ((normalizeModel model).map (placeSpec (cudaDevice rank))).map
          (fun m => m.ident)
        = (normalizeModel model).map (fun m => m.ident) := by
  constructor
  · exact moveModules_ok (cudaDevice rank) (normalizeModel model)
  · simp [List.map_map, Function.comp, placeSpec_ident]

/-- C10: when the model name is an existing local path, `check_model`
returns it unchanged with an empty event trace and an unchanged
filesystem, for every force flag: nothing is deleted, downloaded, or
created. -/
theorem check_model_existing_path (net : String → Bool) (fs : List String)
    (name : String) (force : Bool) (h : fs.contains name = true) :
    check_model net fs name force = (CheckResult.ok name, fs, []) := by
  unfold check_model
  rw [if_pos h]

/-- Witness for C10: a filesystem containing `m.bin`, with `force=true`. -/
theorem check_model_existing_path_witness :
    (["m.bin"] : List String).contains "m.bin" = true
    ∧ check_model (fun _ => true) ["m.bin"] "m.bin" true
        = (CheckResult.ok "m.bin", ["m.bin"], []) :=
  ⟨by decide,
   check_model_existing_path (fun _ => true) ["m.bin"] "m.bin" true (by decide)⟩

/-- C1 (code bug): with `force=false`, a model name that is not an
existing path, and the cached file absent, `check_model` performs no
download at all — even with a perfectly working network — and returns
the path `<DJMC>/<name>`, which does not exist in the resulting
filesystem.  This contradicts the function's own docstring ("If exists,
return its full path.  Else, download it from cached models links.")
and the claim: the download code is only reachable under `force`. -/
theorem check_model_missing_no_download :
    check_model (fun _ => true) [] "lid.176.bin" false
      = (CheckResult.ok (pjoin DJMC "lid.176.bin"), [DJMC], [Ev.makedirs DJMC])
    ∧ ([DJMC] : List String).contains (pjoin DJMC "lid.176.bin") = false
    ∧ (check_model (fun _ => true) [] "lid.176.bin" false).2.2.any isDownload
        = false :=
  ⟨by decide, by decide, by decide⟩

/-- C2 (code bug): for a model name matching no backup pattern
(`foo.bar`), when the primary download fails, the handler evaluates
`os.path.join(None, model_name)` (a `TypeError`), and the inner
`except` block then reads the never-assigned `backup_model_link` while
formatting the error message, raising `UnboundLocalError`: no report
naming both URLs is emitted and `exit(1)` is never reached; the
exception propagates to the caller instead. -/
theorem check_model_no_backup_unbound_local :
    get_backup_model_link "foo.bar" = none
    ∧ check_model (fun _ => false) [] "foo.bar" true
        = (CheckResult.raised "UnboundLocalError", [DJMC],
           [Ev.makedirs DJMC,
            Ev.download (pjoin MODEL_LINKS "foo.bar") (pjoin DJMC "foo.bar")])
    ∧ (check_model (fun _ => false) [] "foo.bar" true).2.2.any isLogError = false
    ∧ (check_model (fun _ => false) [] "foo.bar" true).1 ≠ CheckResult.exited 1 :=
  ⟨by decide, by decide, by decide, by decide⟩

/-- C5: `prepare_model` followed by `get_model` on the key it returned
finds the entry already in `MODEL_ZOO`: the returned object is exactly
the one constructed during registration (same object identity
`st.nextId + 1`), the state is unchanged (no reconstruction, no new
entry), and the only possible event is device placement of that very
object. -/
theorem get_model_after_prepare (st : ZooState) (fam : String) (kw : KwArgs)
    (k : BoundConfig) (st1 : ZooState) (useCuda : Bool) (rank : Option Nat)
    (h : prepare_model st fam kw = some (k, st1)) :
    get_model useCuda st1 (some k) rank
      = (some ⟨fam, kw, st.nextId + 1⟩, st1,
          if useCuda then [GEv.placed (st.nextId + 1) (rank.getD 0)] else []) := by
  obtain ⟨hk, hs⟩ := prepare_model_shape st fam kw k st1 h
  subst hk
  subst hs
  simp [get_model, zooFind, keyEq]

/-- Witness for C5: register a kenlm configuration, then get it with
CUDA enabled; the registered object (identity 1) comes back, the state
is untouched, and the only event is placement of object 1 on device 0. -/
theorem get_model_after_prepare_witness :
    get_model true
        ⟨[(⟨"kenlm", [("lang", "en")], 0⟩, ⟨"kenlm", [("lang", "en")], 1⟩)], 2⟩
        (some ⟨"kenlm", [("lang", "en")], 0⟩) none
      = (some ⟨"kenlm", [("lang", "en")], 1⟩,
          ⟨[(⟨"kenlm", [("lang", "en")], 0⟩, ⟨"kenlm", [("lang", "en")], 1⟩)], 2⟩,
          [GEv.placed 1 0]) :=
  get_model_after_prepare ⟨[], 0⟩ "kenlm" [("lang", "en")]
    ⟨"kenlm", [("lang", "en")], 0⟩
    ⟨[(⟨"kenlm", [("lang", "en")], 0⟩, ⟨"kenlm", [("lang", "en")], 1⟩)], 2⟩
    true none (by decide)

/-- C8: with `force=true`, a model name that is not an existing local
path, and the cached copy present, `check_model` deletes the cached
file before any download attempt begins: the remove event occurs among
the events preceding the first download attempt, and a download attempt
does follow — whatever the outcomes `net` assigns to the primary and
backup URLs. -/
theorem check_model_force_removes_before_download (net : String → Bool)
    (fs : List String) (name : String)
    (h1 : name ∉ fs) (h2 : pjoin DJMC name ∈ fs) :
    Ev.removeFile (pjoin DJMC name)
        ∈ (check_model net fs name true).2.2.takeWhile (fun e => !isDownload e)
    ∧ (check_model net fs name true).2.2.any isDownload = true := by
  unfold check_model
  by_cases hd : DJMC ∈ fs
  · by_cases hp : net (pjoin MODEL_LINKS name) = true
    · simp [h1, h2, hd, hp, isDownload]
    · rcases hb : get_backup_model_link name with _ | base
      · simp [h1, h2, hd, hp, hb, isDownload]
      · by_cases hq : net (pjoin base name) = true
        · simp [h1, h2, hd, hp, hb, hq, isDownload]
        · simp [h1, h2, hd, hp, hb, hq, isDownload]
  · by_cases hp : net (pjoin MODEL_LINKS name) = true
    · simp [h1, h2, hd, hp, isDownload]
    · rcases hb : get_backup_model_link name with _ | base
      · simp [h1, h2, hd, hp, hb, isDownload]
      · by_cases hq : net (pjoin base name) = true
        · simp [h1, h2, hd, hp, hb, hq, isDownload]
        · simp [h1, h2, hd, hp, hb, hq, isDownload]

/-- Witness for C8: cached copy `/dj/models/m.bin` present, `m.bin` not
a local path, both downloads failing. -/
theorem check_model_force_removes_before_download_witness :
    Ev.removeFile (pjoin DJMC "m.bin")
        ∈ (check_model (fun _ => false) ["/dj/models/m.bin"] "m.bin" true).2.2.takeWhile
            (fun e => !isDownload e)
    ∧ (check_model (fun _ => false) ["/dj/models/m.bin"] "m.bin" true).2.2.any
          isDownload = true :=
  check_model_force_removes_before_download (fun _ => false)
    ["/dj/models/m.bin"] "m.bin" (by decide) (by decide)

/-- C9: the `MODEL_ZOO` table only grows.  Under the allocation
invariant `WF` (every stored key identity was allocated below the
counter, distinct entries have distinct key identities — true of the
empty initial table and preserved by every operation), and given that a
queried key was allocated earlier (`hq`, true of any key a caller can
hold): at most one entry is bound to any fixed key; `prepare_model`
preserves the invariant, keeps the old table as a suffix of the new one
and preserves every existing binding; and `get_model` (which includes
device placement — placement mutates the stored object in place and
never touches the table) does the same. -/
theorem model_zoo_monotone (st : ZooState) (k : BoundConfig) (v : LoadedModel)
    (fam : String) (kw : KwArgs) (k1 : BoundConfig) (st1 : ZooState)
    (useCuda : Bool) (q : Option BoundConfig) (rank : Option Nat)
    (hwf : WF st)
    (hq : ∀ qk, q = some qk → qk.oid < st.nextId)
    (hp : prepare_model st fam kw = some (k1, st1)) :
    (st.zoo.filter (fun e => keyEq e.1 k)).length ≤ 1
    ∧ (WF st1 ∧ List.IsSuffix st.zoo st1.zoo
        ∧ (zooFind st.zoo k = some v → zooFind st1.zoo k = some v))
    ∧ (WF (get_model useCuda st q rank).2.1
        ∧ List.IsSuffix st.zoo (get_model useCuda st q rank).2.1.zoo
        ∧ (zooFind st.zoo k = some v →
            zooFind (get_model useCuda st q rank).2.1.zoo k = some v)) := by
  obtain ⟨hk1, hs1⟩ := prepare_model_shape st fam kw k1 st1 hp
  refine ⟨zoo_filter_length_le_one st.zoo k hwf.2,
    ⟨WF_prepare_model st fam kw k1 st1 hwf hp, ?_, ?_⟩, ?_⟩
  · subst hs1
    exact List.suffix_cons _ _
  · subst hs1
    intro hv
    have hlt : k.oid < st.nextId := zooFind_some_oid_lt st.zoo k v st.nextId hwf.1 hv
    rw [zooFind_cons_ne _ _ _ (by
      simp only [keyEq, beq_eq_false_iff_ne, ne_eq]
      omega)]
    exact hv
  · match q with
    | none => exact ⟨hwf, List.suffix_refl _, fun hv => hv⟩
    | some qk =>
      rcases hf : zooFind st.zoo qk with _ | v0
      · have hqk : qk.oid < st.nextId := hq qk rfl
        have hall := zooFind_none_forall st.zoo qk hf
        have hstate : (get_model useCuda st (some qk) rank).2.1
            = ⟨(qk, ⟨qk.family, qk.kwargs, st.nextId⟩) :: st.zoo, st.nextId + 1⟩ := by
          simp [get_model, hf]
        rw [hstate]
        refine ⟨⟨?_, ?_⟩, List.suffix_cons _ _, ?_⟩
        · intro e he
          show e.1.oid < st.nextId + 1
          rcases List.mem_cons.mp he with h1 | h1
          · have he1 : e.1.oid = qk.oid := by rw [h1]
            omega
          · have := hwf.1 e h1
            omega
        · refine List.pairwise_cons.mpr ⟨?_, hwf.2⟩
          intro b hb
          have hb2 := hall b hb
          show qk.oid ≠ b.1.oid
          simp only [keyEq, beq_eq_false_iff_ne, ne_eq] at hb2
          omega
        · intro hv
          have hne : keyEq qk k = false := by
            simp only [keyEq, beq_eq_false_iff_ne, ne_eq]
            intro heq
            rw [zooFind_congr st.zoo qk k heq, hv] at hf
            exact absurd hf (by simp)
          rw [zooFind_cons_ne _ _ _ hne]
          exact hv
      · have hstate : (get_model useCuda st (some qk) rank).2.1 = st := by
          simp [get_model, hf]
        rw [hstate]
        exact ⟨hwf, List.suffix_refl _, fun hv => hv⟩

/-- Witness for C9, at the state with the fasttext entry registered:
registering an nltk model and getting the existing key both leave the
fasttext binding intact. -/
theorem model_zoo_monotone_witness :
    (st1ex.zoo.filter (fun e => keyEq e.1 k1ex)).length ≤ 1
    ∧ (WF ⟨[(⟨"nltk", [("lang", "en")], 2⟩, ⟨"nltk", [("lang", "en")], 3⟩),
            (k1ex, m1ex)], 4⟩
        ∧ List.IsSuffix st1ex.zoo
            (⟨[(⟨"nltk", [("lang", "en")], 2⟩, ⟨"nltk", [("lang", "en")], 3⟩),
               (k1ex, m1ex)], 4⟩ : ZooState).zoo
        ∧ (zooFind st1ex.zoo k1ex = some m1ex →
            zooFind (⟨[(⟨"nltk", [("lang", "en")], 2⟩,
                        ⟨"nltk", [("lang", "en")], 3⟩),
                       (k1ex, m1ex)], 4⟩ : ZooState).zoo k1ex = some m1ex))
    ∧ (WF (get_model false st1ex (some k1ex) none).2.1
        ∧ List.IsSuffix st1ex.zoo (get_model false st1ex (some k1ex) none).2.1.zoo
        ∧ (zooFind st1ex.zoo k1ex = some m1ex →
            zooFind (get_model false st1ex (some k1ex) none).2.1.zoo k1ex
              = some m1ex)) :=
  model_zoo_monotone st1ex k1ex m1ex "nltk" [("lang", "en")]
    ⟨"nltk", [("lang", "en")], 2⟩
    ⟨[(⟨"nltk", [("lang", "en")], 2⟩, ⟨"nltk", [("lang", "en")], 3⟩),
      (k1ex, m1ex)], 4⟩
    false (some k1ex) none
    (by
      constructor
      · intro e he
        simp only [st1ex, k1ex, m1ex, kwEx, List.mem_singleton] at he
        rw [he]
        decide
      · exact List.pairwise_singleton _ _)
    (fun qk hqk => by
      injection hqk with h
      subst h
      decide)
    (by decide)

/-- Counterexample to C3: two `prepare_model` calls with the same family
(`fasttext`) and the same keyword parameters return keys that agree on
family and every parameter value yet are NOT equal — `functools.partial`
keys compare by object identity — and `get_model` on the second key over
the table holding the first entry misses the cache and performs a new
construction instead of hitting the existing entry. -/
theorem boundConfig_identity_counterexample :
    prepare_model ⟨[], 0⟩ "fasttext" kwEx = some (k1ex, st1ex)
    ∧ prepare_model st1ex "fasttext" kwEx = some (k2ex, st2ex)
    ∧ k1ex.family = k2ex.family ∧ k1ex.kwargs = k2ex.kwargs
    ∧ keyEq k1ex k2ex = false ∧ k1ex ≠ k2ex
    ∧ (get_model false st1ex (some k2ex) none).2.2 = [GEv.constructed 2] :=
  ⟨by decide, by decide, by decide, by decide, by decide, by decide, by decide⟩

/-- C3 (amended): two cache keys are equal iff they have the same object
identity (`functools.partial` defines no structural equality), so two
keys built by `prepare_model` from the same family and parameters agree
on family and every parameter value but are unequal, and a `get_model`
on the second key over the table that registered the first misses and
triggers a fresh construction. -/
theorem boundConfig_identity_equality (st : ZooState) (fam : String)
    (kw : KwArgs) (k1 k2 : BoundConfig) (st1 st2 : ZooState)
    (useCuda : Bool) (rank : Option Nat)
    (hwf : WF st)
    (h1 : prepare_model st fam kw = some (k1, st1))
    (h2 : prepare_model st1 fam kw = some (k2, st2)) :
    (∀ a b : BoundConfig, keyEq a b = true ↔ a.oid = b.oid)
    ∧ k1.family = k2.family ∧ k1.kwargs = k2.kwargs
    ∧ keyEq k1 k2 = false
    ∧ GEv.constructed st1.nextId ∈ (get_model useCuda st1 (some k2) rank).2.2 := by
  obtain ⟨hk1, hs1⟩ := prepare_model_shape st fam kw k1 st1 h1
  obtain ⟨hk2, hs2⟩ := prepare_model_shape st1 fam kw k2 st2 h2
  subst hk1
  subst hs1
  subst hk2
  subst hs2
  refine ⟨fun a b => beq_iff_eq, rfl, rfl, ?_, ?_⟩
  · simp only [keyEq, beq_eq_false_iff_ne, ne_eq]
    omega
  · have hmiss : zooFind
        ((⟨fam, kw, st.nextId⟩, (⟨fam, kw, st.nextId + 1⟩ : LoadedModel))
          :: st.zoo) ⟨fam, kw, st.nextId + 2⟩ = none := by
      apply zooFind_none_of_ge _ _ (st.nextId + 2)
      · intro e he
        rcases List.mem_cons.mp he with h | h
        · have he1 : e.1.oid = st.nextId := by rw [h]
          omega
        · have := hwf.1 e h
          omega
      · exact Nat.le_refl _
    simp [get_model, hmiss]

/-- Witness for C3's amended theorem, at the concrete counterexample
state: the two fasttext keys are unequal and the get constructs anew. -/
theorem boundConfig_identity_equality_witness :
    keyEq k1ex k2ex = false
    ∧ GEv.constructed 2 ∈ (get_model false st1ex (some k2ex) none).2.2 := by
  have h := boundConfig_identity_equality ⟨[], 0⟩ "fasttext" kwEx k1ex k2ex
    st1ex st2ex false none
    (by constructor
        · intro e he
          simp at he
        · exact List.Pairwise.nil)
    (by decide) (by decide)
  exact ⟨h.2.2.2.1, h.2.2.2.2⟩

end ModelUtils
